import Mathlib

set_option maxRecDepth 4000

/-!
Shallow embedding of the geometric/tiling core of `yandex-hotspots`
(src/hotspots.py): tile-local pixel arithmetic (`Placemark.move`),
boundary fragmentation (`Placemark.get_parts`), placemark creation
(`Placemark.create`), the divmod stage of `GeoPoint.zoom`, and the
per-tile ordering and priority assignment (`Tile.sort`).

Machine integers of the source are Python arbitrary-precision ints,
embedded as `Int`; Python `divmod` with the positive divisor 256 is
floor division with non-negative remainder, embedded as
`Int.fdiv` / `Int.fmod`.  The opaque visual payload (`img`) and data
payload (`data`) are type parameters; the geographic anchor (`lng`,
`lat`), a Python float never computed on by the core, is carried as `ℚ`.
-/

namespace Hotspots

/-- Embeds `Tile.size = 256` (src/hotspots.py line 14); `TileVersion2`
inherits it unchanged, and `GeoPoint.tile_size` aliases it. -/
def Tile.size : Int := 256

/-- Embeds the `Placemark` object (src/hotspots.py lines 244-258):
tile address `tile_num`, geographic anchor `lng`/`lat`, tile-local
`box = (x1, y1, x2, y2)`, opaque payloads `img` and `data`, and the
class attribute `priority = 1.0` (line 205) as default. -/
structure Placemark (I D : Type) where
  tile_num : Int × Int
  lng : ℚ
  lat : ℚ
  box : Int × Int × Int × Int
  img : I
  data : D
  priority : ℚ := 1
deriving Repr, DecidableEq

/-- Everything of a `Placemark` except the mutable `priority` field:
used to state reordering claims about `Tile.sort`, which rewrites
priorities but no other field. -/
structure Core (I D : Type) where
  tile_num : Int × Int
  lng : ℚ
  lat : ℚ
  box : Int × Int × Int × Int
  img : I
  data : D
deriving Repr, DecidableEq

def Placemark.core {I D : Type} (p : Placemark I D) : Core I D :=
  ⟨p.tile_num, p.lng, p.lat, p.box, p.img, p.data⟩

/-- Embeds `Placemark.move` (src/hotspots.py lines 207-213):
`o_x, o_left = divmod(left+offset[1], 256)`,
`o_y, o_top = divmod(top+offset[0], 256)`, returning
`(x + o_x, y + o_y, o_top, o_left)`. -/
def Placemark.move (x y top left : Int) (offset : Int × Int) :
    Int × Int × Int × Int :=
  let o_x := (left + offset.2).fdiv Tile.size
  let o_left := (left + offset.2).fmod Tile.size
  let o_y := (top + offset.1).fdiv Tile.size
  let o_top := (top + offset.1).fmod Tile.size
  (x + o_x, y + o_y, o_top, o_left)

/-- Embeds `Placemark.get_parts` (src/hotspots.py lines 215-230): folds
over the three `(offset, func)` pairs of `offset_tuple` in order, keeps
an association list for the Python dict `plmrk_dct` (iteration in
insertion order, as the repository's own test `test_placemark_move`
pins), and skips a candidate when its tile equals the origin or its
tile is already a key. -/
def Placemark.get_parts (x y : Int) (box : Int × Int × Int × Int) :
    List ((Int × Int) × (Int × Int × Int × Int)) :=
  let width := box.2.2.1 - box.1
  let height := box.2.2.2 - box.2.1
  let offset_tuple :
      List ((Int × Int) × (Int → Int → Int → Int → Int × Int × Int × Int)) :=
    [((height, width), fun top left width height =>
        (left - width, top - height, left, top)),
     ((0, width), fun top left width height =>
        (left - width, top, left, top + height)),
     ((height, 0), fun top left width height =>
        (left, top - height, left + width, top))]
  offset_tuple.foldl (fun acc of =>
    let m := Placemark.move x y box.2.1 box.1 of.1
    if (m.1, m.2.1) ≠ (x, y) ∧ ∀ e ∈ acc, e.1 ≠ (m.1, m.2.1) then
      acc ++ [((m.1, m.2.1), of.2 m.2.2.1 m.2.2.2 width height)]
    else acc) []

/-- Embeds `Placemark.create` (src/hotspots.py lines 232-242) from the
point where `geopoint.zoom(scale)` has produced integer coordinates
`(x, y, top, left)` (that float pipeline is quantified over all integer
outcomes); `sz` is `img.size = (width, height)` and `lng`/`lat` are
`geopoint.lng`/`geopoint.lat`. -/
def Placemark.create {I D : Type} (x y top left : Int) (offset : Int × Int)
    (lng lat : ℚ) (sz : Int × Int) (img : I) (data : D) :
    List (Placemark I D) :=
  let m := Placemark.move x y top left offset
  let width := sz.1
  let height := sz.2
  let tile_num := (m.1, m.2.1)
  let box := (m.2.2.2, m.2.2.1, m.2.2.2 + width, m.2.2.1 + height)
  let placemark_list := (tile_num, box) ::
    Placemark.get_parts m.1 m.2.1 box
  placemark_list.map (fun plmrk =>
    { tile_num := plmrk.1, lng := lng, lat := lat, box := plmrk.2,
      img := img, data := data })

/-- Embeds the final, integer stage of `GeoPoint.zoom`
(src/hotspots.py lines 179-184): the two `divmod`s of the pixel
coordinates `lngP, latP` by `tile_size`.  The preceding
`_mercator_to_pixel` float computation is abstracted by quantifying
over its integer outputs. -/
def GeoPoint.zoom (lngP latP : Int) : Int × Int × Int × Int :=
  let x := lngP.fdiv Tile.size
  let left := lngP.fmod Tile.size
  let y := latP.fdiv Tile.size
  let top := latP.fmod Tile.size
  (x, y, top, left)

/-- Embeds `round(1.0/count, 4)` (src/hotspots.py line 64): rounding a
positive value to four decimal places.  Python 2's `round` rounds half
away from zero, which on positive arguments is `⌊v·10⁴ + 1/2⌋ / 10⁴`,
Mathlib's `round`. -/
def round4inv (count : ℕ) : ℚ :=
  (round ((10000 : ℚ) / count) : ℚ) / 10000

/-- Embeds the priority loop of `Tile.sort` (src/hotspots.py lines
61-65): `count` starts at the list length and each placemark in order
receives `round(1.0/count, 4)` before `count` is decremented. -/
def Tile.assignPriorities {I D : Type} :
    ℕ → List (Placemark I D) → List (Placemark I D)
  | _, [] => []
  | c, p :: ps =>
      { p with priority := round4inv c } :: Tile.assignPriorities (c - 1) ps

/-- Embeds `Tile.sort` (src/hotspots.py lines 58-65):
`placemark_list.sort(key=lambda p: p.box[1])` — Python's stable sort,
embedded as `List.mergeSort` on the same key — followed by the priority
loop. -/
def Tile.sort {I D : Type} (l : List (Placemark I D)) :
    List (Placemark I D) :=
  let sorted := l.mergeSort (fun a b => decide (a.box.2.1 ≤ b.box.2.1))
  Tile.assignPriorities sorted.length sorted

/-- Concrete placemark with `Unit` payloads anchored at top-coordinate `t`,
used for closed instances of the sorting theorems. -/
def samplePlacemark (t : Int) : Placemark Unit Unit :=
  { tile_num := (0, 0), lng := 0, lat := 0, box := (0, t, 10, t + 10),
    img := (), data := () }

/-- Concrete three-element tile content, already in ascending top order. -/
def samplePlacemarks : List (Placemark Unit Unit) :=
  [samplePlacemark 0, samplePlacemark 1, samplePlacemark 2]

end Hotspots

namespace Hotspots

/-- Unfolding of the three-step fold of `Placemark.get_parts` into its
explicit insertion sequence. -/
theorem gp_closed (x y : Int) (box : Int × Int × Int × Int) :
    Placemark.get_parts x y box =
    (let W := box.2.2.1 - box.1
     let H := box.2.2.2 - box.2.1
     let m1 := Placemark.move x y box.2.1 box.1 (H, W)
     let m2 := Placemark.move x y box.2.1 box.1 (0, W)
     let m3 := Placemark.move x y box.2.1 box.1 (H, 0)
     let k1 := (m1.1, m1.2.1)
     let e1 := (k1, (m1.2.2.2 - W, m1.2.2.1 - H, m1.2.2.2, m1.2.2.1))
     let k2 := (m2.1, m2.2.1)
     let e2 := (k2, (m2.2.2.2 - W, m2.2.2.1, m2.2.2.2, m2.2.2.1 + H))
     let k3 := (m3.1, m3.2.1)
     let e3 := (k3, (m3.2.2.2, m3.2.2.1 - H, m3.2.2.2 + W, m3.2.2.1))
     let l1 := if k1 ≠ (x, y) ∧ ∀ e ∈ ([] : List ((Int × Int) × (Int × Int × Int × Int))), e.1 ≠ k1 then [] ++ [e1] else []
     let l2 := if k2 ≠ (x, y) ∧ ∀ e ∈ l1, e.1 ≠ k2 then l1 ++ [e2] else l1
     if k3 ≠ (x, y) ∧ ∀ e ∈ l2, e.1 ≠ k3 then l2 ++ [e3] else l2) := rfl

/-- Cardinality and key-distinctness facts of `Placemark.get_parts`. -/
theorem gp_facts (x y : Int) (box : Int × Int × Int × Int) :
    (Placemark.get_parts x y box).length ≤ 3 ∧
    ((x, y) ∉ (Placemark.get_parts x y box).map Prod.fst) ∧
    ((Placemark.get_parts x y box).map Prod.fst).Nodup := by
  rw [gp_closed]
  dsimp only
  generalize Placemark.move x y box.2.1 box.1 (box.2.2.2 - box.2.1, box.2.2.1 - box.1) = m1
  generalize Placemark.move x y box.2.1 box.1 (0, box.2.2.1 - box.1) = m2
  generalize Placemark.move x y box.2.1 box.1 (box.2.2.2 - box.2.1, 0) = m3
  obtain ⟨a1, c1, t1, l1⟩ := m1
  obtain ⟨a2, c2, t2, l2⟩ := m2
  obtain ⟨a3, c3, t3, l3⟩ := m3
  split_ifs <;> simp_all <;> omega

/-- Every entry of `Placemark.get_parts` is one of the three candidate
(neighbor, translated box) pairs. -/
theorem gp_mem_cases (x y : Int) (box : Int × Int × Int × Int)
    (e : (Int × Int) × (Int × Int × Int × Int))
    (he : e ∈ Placemark.get_parts x y box) :
    (let W := box.2.2.1 - box.1
     let H := box.2.2.2 - box.2.1
     let m1 := Placemark.move x y box.2.1 box.1 (H, W)
     let m2 := Placemark.move x y box.2.1 box.1 (0, W)
     let m3 := Placemark.move x y box.2.1 box.1 (H, 0)
     e = ((m1.1, m1.2.1), (m1.2.2.2 - W, m1.2.2.1 - H, m1.2.2.2, m1.2.2.1)) ∨
     e = ((m2.1, m2.2.1), (m2.2.2.2 - W, m2.2.2.1, m2.2.2.2, m2.2.2.1 + H)) ∨
     e = ((m3.1, m3.2.1), (m3.2.2.2, m3.2.2.1 - H, m3.2.2.2 + W, m3.2.2.1))) := by
  rw [gp_closed] at he
  dsimp only at he ⊢
  generalize box.2.2.1 - box.1 = W at he ⊢
  generalize box.2.2.2 - box.2.1 = H at he ⊢
  generalize Placemark.move x y box.2.1 box.1 (H, W) = m1 at he ⊢
  generalize Placemark.move x y box.2.1 box.1 (0, W) = m2 at he ⊢
  generalize Placemark.move x y box.2.1 box.1 (H, 0) = m3 at he ⊢
  split_ifs at he <;>
    simp only [List.nil_append, List.mem_append, List.mem_singleton,
      List.not_mem_nil, or_false, false_or] at he <;>
    tauto

/-- When the vertical offset resolves to the same neighbor as the diagonal
one, the entry at that neighbor carries the diagonal rule's box. -/
theorem gp_first_wins_diag_vert (x y : Int) (box : Int × Int × Int × Int)
    (e : (Int × Int) × (Int × Int × Int × Int))
    (he : e ∈ Placemark.get_parts x y box) :
    (let W := box.2.2.1 - box.1
     let H := box.2.2.2 - box.2.1
     let m1 := Placemark.move x y box.2.1 box.1 (H, W)
     let m2 := Placemark.move x y box.2.1 box.1 (0, W)
     (m2.1, m2.2.1) = (m1.1, m1.2.1) → e.1 = (m2.1, m2.2.1) →
       e.2 = (m1.2.2.2 - W, m1.2.2.1 - H, m1.2.2.2, m1.2.2.1)) := by
  rw [gp_closed] at he
  dsimp only at he ⊢
  generalize box.2.2.1 - box.1 = W at he ⊢
  generalize box.2.2.2 - box.2.1 = H at he ⊢
  generalize Placemark.move x y box.2.1 box.1 (H, W) = m1 at he ⊢
  generalize Placemark.move x y box.2.1 box.1 (0, W) = m2 at he ⊢
  generalize Placemark.move x y box.2.1 box.1 (H, 0) = m3 at he ⊢
  intro hk he1
  obtain ⟨a1, c1, t1, l1⟩ := m1
  obtain ⟨a2, c2, t2, l2⟩ := m2
  obtain ⟨a3, c3, t3, l3⟩ := m3
  split_ifs at he <;>
    simp only [List.nil_append, List.mem_append, List.mem_singleton,
      List.not_mem_nil, or_false, false_or] at he <;>
    simp_all
  all_goals rcases he with he | he <;> subst he <;> simp_all

/-- When the horizontal offset resolves to the same neighbor as the
diagonal one, the entry at that neighbor carries the diagonal rule's box. -/
theorem gp_first_wins_diag_horiz (x y : Int) (box : Int × Int × Int × Int)
    (e : (Int × Int) × (Int × Int × Int × Int))
    (he : e ∈ Placemark.get_parts x y box) :
    (let W := box.2.2.1 - box.1
     let H := box.2.2.2 - box.2.1
     let m1 := Placemark.move x y box.2.1 box.1 (H, W)
     let m3 := Placemark.move x y box.2.1 box.1 (H, 0)
     (m3.1, m3.2.1) = (m1.1, m1.2.1) → e.1 = (m3.1, m3.2.1) →
       e.2 = (m1.2.2.2 - W, m1.2.2.1 - H, m1.2.2.2, m1.2.2.1)) := by
  rw [gp_closed] at he
  dsimp only at he ⊢
  generalize box.2.2.1 - box.1 = W at he ⊢
  generalize box.2.2.2 - box.2.1 = H at he ⊢
  generalize Placemark.move x y box.2.1 box.1 (H, W) = m1 at he ⊢
  generalize Placemark.move x y box.2.1 box.1 (0, W) = m2 at he ⊢
  generalize Placemark.move x y box.2.1 box.1 (H, 0) = m3 at he ⊢
  intro hk he1
  obtain ⟨a1, c1, t1, l1⟩ := m1
  obtain ⟨a2, c2, t2, l2⟩ := m2
  obtain ⟨a3, c3, t3, l3⟩ := m3
  split_ifs at he <;>
    simp only [List.nil_append, List.mem_append, List.mem_singleton,
      List.not_mem_nil, or_false, false_or] at he <;>
    simp_all
  all_goals rcases he with he | he <;> subst he <;> simp_all

/-- When the horizontal offset resolves to the same neighbor as the
vertical one (and the diagonal differs), the entry at that neighbor
carries the vertical rule's box. -/
theorem gp_first_wins_vert_horiz (x y : Int) (box : Int × Int × Int × Int)
    (e : (Int × Int) × (Int × Int × Int × Int))
    (he : e ∈ Placemark.get_parts x y box) :
    (let W := box.2.2.1 - box.1
     let H := box.2.2.2 - box.2.1
     let m1 := Placemark.move x y box.2.1 box.1 (H, W)
     let m2 := Placemark.move x y box.2.1 box.1 (0, W)
     let m3 := Placemark.move x y box.2.1 box.1 (H, 0)
     (m3.1, m3.2.1) = (m2.1, m2.2.1) → (m2.1, m2.2.1) ≠ (m1.1, m1.2.1) →
       e.1 = (m3.1, m3.2.1) →
       e.2 = (m2.2.2.2 - W, m2.2.2.1, m2.2.2.2, m2.2.2.1 + H)) := by
  rw [gp_closed] at he
  dsimp only at he ⊢
  generalize box.2.2.1 - box.1 = W at he ⊢
  generalize box.2.2.2 - box.2.1 = H at he ⊢
  generalize Placemark.move x y box.2.1 box.1 (H, W) = m1 at he ⊢
  generalize Placemark.move x y box.2.1 box.1 (0, W) = m2 at he ⊢
  generalize Placemark.move x y box.2.1 box.1 (H, 0) = m3 at he ⊢
  intro hk hk2 he1
  obtain ⟨a1, c1, t1, l1⟩ := m1
  obtain ⟨a2, c2, t2, l2⟩ := m2
  obtain ⟨a3, c3, t3, l3⟩ := m3
  split_ifs at he <;>
    simp only [List.nil_append, List.mem_append, List.mem_singleton,
      List.not_mem_nil, or_false, false_or] at he <;>
    simp_all
  all_goals rcases he with he | he <;> subst he <;> simp_all

/-- A zero-size box whose anchor lies inside the tile produces no
fragments. -/
theorem gp_zero (x y : Int) (box : Int × Int × Int × Int)
    (hw : box.2.2.1 = box.1) (hh : box.2.2.2 = box.2.1)
    (hl0 : 0 ≤ box.1) (hl1 : box.1 < 256) (ht0 : 0 ≤ box.2.1) (ht1 : box.2.1 < 256) :
    Placemark.get_parts x y box = [] := by
  have hx : box.1.fdiv Tile.size = 0 := by
    rw [Int.fdiv_eq_ediv _ (by norm_num [Tile.size])]
    exact Int.ediv_eq_zero_of_lt hl0 (by simpa [Tile.size] using hl1)
  have hy : (box.2.1).fdiv Tile.size = 0 := by
    rw [Int.fdiv_eq_ediv _ (by norm_num [Tile.size])]
    exact Int.ediv_eq_zero_of_lt ht0 (by simpa [Tile.size] using ht1)
  rw [gp_closed]
  dsimp only
  simp [Placemark.move, hw, hh, hx, hy]

end Hotspots

namespace Hotspots

/-- Monotonicity of rounding on rationals. -/
theorem round_rat_mono {a b : ℚ} (h : a ≤ b) : round a ≤ round b := by
  rw [round_eq, round_eq]
  exact Int.floor_le_floor (by linarith)

/-- The rounded reciprocal priorities shrink as the count grows. -/
theorem round4inv_antitone {c c' : ℕ} (h1 : 1 ≤ c) (h : c ≤ c') :
    round4inv c' ≤ round4inv c := by
  unfold round4inv
  have hc : (0 : ℚ) < c := by exact_mod_cast h1
  have hc' : (0 : ℚ) < c' := by
    have : 1 ≤ c' := le_trans h1 h
    exact_mod_cast this
  have hdiv : (10000 : ℚ) / c' ≤ 10000 / c := by
    apply div_le_div_of_nonneg_left (by norm_num) hc
    exact_mod_cast h
  have hr := round_rat_mono hdiv
  have : ((round ((10000 : ℚ) / c') : ℤ) : ℚ) ≤ ((round ((10000 : ℚ) / c) : ℤ) : ℚ) := by
    exact_mod_cast hr
  linarith

/-- A singleton tile's priority, `round(1/1, 4)`, is exactly one. -/
theorem round4inv_one : round4inv 1 = 1 := by
  unfold round4inv
  norm_num [round_eq]

/-- The priority loop rewrites only the `priority` field. -/
theorem assignPriorities_map_core {I D : Type} (c : ℕ) (m : List (Placemark I D)) :
    (Tile.assignPriorities c m).map Placemark.core = m.map Placemark.core := by
  induction m generalizing c with
  | nil => simp [Tile.assignPriorities]
  | cons p ps ih => simp [Tile.assignPriorities, Placemark.core, ih]

/-- The priorities assigned by the loop, position by position. -/
theorem assignPriorities_map_priority {I D : Type} (c : ℕ) (m : List (Placemark I D)) :
    (Tile.assignPriorities c m).map Placemark.priority
      = (List.range m.length).map (fun i => round4inv (c - i)) := by
  induction m generalizing c with
  | nil => simp [Tile.assignPriorities]
  | cons p ps ih =>
      simp only [Tile.assignPriorities, List.map_cons, List.length_cons,
        List.range_succ_eq_map, ih (c - 1), List.map_map]
      refine congrArg₂ _ (by simp) (List.map_congr_left ?_)
      intro i _
      simp [Function.comp, Nat.sub_sub, Nat.add_comm]

/-- The priority loop preserves the list length. -/
theorem assignPriorities_length {I D : Type} (c : ℕ) (m : List (Placemark I D)) :
    (Tile.assignPriorities c m).length = m.length := by
  induction m generalizing c with
  | nil => simp [Tile.assignPriorities]
  | cons p ps ih => simp [Tile.assignPriorities, ih]

/-- Transitivity of the boolean sort key comparison of `Tile.sort`. -/
theorem sortLE_trans {I D : Type} (a b c : Placemark I D)
    (hab : (fun a b : Placemark I D => decide (a.box.2.1 ≤ b.box.2.1)) a b)
    (hbc : (fun a b : Placemark I D => decide (a.box.2.1 ≤ b.box.2.1)) b c) :
    (fun a b : Placemark I D => decide (a.box.2.1 ≤ b.box.2.1)) a c := by
  simp only [decide_eq_true_eq] at *
  omega

/-- Totality of the boolean sort key comparison of `Tile.sort`. -/
theorem sortLE_total {I D : Type} (a b : Placemark I D) :
    ((fun a b : Placemark I D => decide (a.box.2.1 ≤ b.box.2.1)) a b
      || (fun a b : Placemark I D => decide (a.box.2.1 ≤ b.box.2.1)) b a) := by
  simp only [Bool.or_eq_true, decide_eq_true_eq]
  omega

/-- Lists with equal cores have, key class by key class, equal cores. -/
theorem map_core_filter_key {I D : Type} (L M : List (Placemark I D)) (k : Int)
    (h : L.map Placemark.core = M.map Placemark.core) :
    (L.filter (fun p => decide (p.box.2.1 = k))).map Placemark.core
      = (M.filter (fun p => decide (p.box.2.1 = k))).map Placemark.core := by
  induction L generalizing M with
  | nil =>
      have hM : M = [] := by
        cases M with
        | nil => rfl
        | cons q qs => simp at h
      simp [hM]
  | cons p ps ih =>
      cases M with
      | nil => simp at h
      | cons q qs =>
          simp only [List.map_cons, List.cons.injEq] at h
          obtain ⟨hpq, hrest⟩ := h
          have hbox : p.box = q.box := by
            have := congrArg Core.box hpq
            simpa [Placemark.core] using this
          by_cases hk : p.box.2.1 = k
          · have hk' : q.box.2.1 = k := hbox ▸ hk
            simp [List.filter_cons, hk, hk', hpq, ih qs hrest]
          · have hk' : ¬ q.box.2.1 = k := by
              rw [← hbox]
              exact hk
            simp [List.filter_cons, hk, hk', ih qs hrest]

/-- Stability of the underlying stable sort: each class of placemarks
sharing one top coordinate comes out exactly as it went in. -/
theorem mergeSort_filter_key_stable {I D : Type} (l : List (Placemark I D)) (k : Int) :
    ((l.mergeSort (fun a b => decide (a.box.2.1 ≤ b.box.2.1))).filter
        (fun p => decide (p.box.2.1 = k)))
      = l.filter (fun p => decide (p.box.2.1 = k)) := by
  have hpair : (l.filter (fun p => decide (p.box.2.1 = k))).Pairwise
      (fun a b : Placemark I D => decide (a.box.2.1 ≤ b.box.2.1)) := by
    apply List.pairwise_of_forall_mem_list
    intro a ha b hb
    have ha' := (List.mem_filter.mp ha).2
    have hb' := (List.mem_filter.mp hb).2
    simp only [decide_eq_true_eq] at *
    omega
  have hsub : List.Sublist (l.filter (fun p => decide (p.box.2.1 = k)))
      (l.mergeSort (fun a b => decide (a.box.2.1 ≤ b.box.2.1))) :=
    List.sublist_mergeSort sortLE_trans sortLE_total hpair (List.filter_sublist l)
  have hsub2 : List.Sublist (l.filter (fun p => decide (p.box.2.1 = k)))
      ((l.mergeSort (fun a b => decide (a.box.2.1 ≤ b.box.2.1))).filter
        (fun p => decide (p.box.2.1 = k))) := by
    have h2 := hsub.filter (fun p => decide (p.box.2.1 = k))
    rwa [List.filter_eq_self.mpr (fun a ha => (List.mem_filter.mp ha).2)] at h2
  have hlen : ((l.mergeSort (fun a b => decide (a.box.2.1 ≤ b.box.2.1))).filter
      (fun p => decide (p.box.2.1 = k))).length
      = (l.filter (fun p => decide (p.box.2.1 = k))).length :=
    ((List.mergeSort_perm l _).filter (fun p => decide (p.box.2.1 = k))).length_eq
  exact (hsub2.eq_of_length hlen.symm).symm

end Hotspots

namespace Hotspots

/-- Claim C1 (amended): for every tile content, after `Tile.sort` the
sequence of assigned priorities is non-decreasing in final order; the
first (visually topmost) placemark's priority equals `round(1/N, 4)` and
is the smallest value, and the last placemark's priority is the largest
and equals `round(1/1, 4) = 1`; the length of the list is preserved. -/
theorem tile_sort_priorities {I D : Type} (l : List (Placemark I D)) :
    (Tile.sort l).length = l.length ∧
    ((Tile.sort l).map Placemark.priority).Chain' (· ≤ ·) ∧
    ((Tile.sort l).map Placemark.priority).head?
      = (if l.length = 0 then none else some (round4inv l.length)) ∧
    ((Tile.sort l).map Placemark.priority).getLast?
      = (if l.length = 0 then none else some 1) := by
  have hps : (Tile.sort l).map Placemark.priority
      = (List.range l.length).map (fun i => round4inv (l.length - i)) := by
    unfold Tile.sort
    rw [assignPriorities_map_priority]
    simp
  refine ⟨?_, ?_, ?_, ?_⟩
  · unfold Tile.sort
    rw [assignPriorities_length]
    simp
  · rw [hps]
    apply List.Pairwise.chain'
    rw [List.pairwise_map]
    rw [List.pairwise_iff_getElem]
    intro i j hi hj hij
    rw [List.length_range] at hi hj
    simp only [List.getElem_range]
    exact round4inv_antitone (by omega) (by omega)
  · rw [hps]
    cases hn : l.length with
    | zero => simp
    | succ n => simp [List.range_succ_eq_map]
  · rw [hps]
    cases hn : l.length with
    | zero => simp
    | succ n =>
        rw [List.range_succ]
        have h1 : n + 1 - n = 1 := by omega
        simp [List.getLast?_concat, h1, round4inv_one]

/-- Claim C1, counterexample to the frozen wording: on a tile with three
placemarks `Tile.sort` assigns the priorities `[0.3333, 0.5, 1]`, which
are strictly increasing — not non-increasing — the steps are unequal,
and the last priority is `1`, not `round(1/3, 4)`. -/
theorem tile_sort_descending_cex :
    (Tile.sort samplePlacemarks).map Placemark.priority = [3333/10000, 1/2, 1] ∧
    ¬ List.Chain' (fun a b : ℚ => b ≤ a) [3333/10000, 1/2, 1] ∧
    ((3333 : ℚ)/10000 < 1/2 ∧ (1:ℚ)/2 < 1) ∧
    ¬ ((1 : ℚ)/2 - 3333/10000 = 1 - 1/2) ∧
    ((Tile.sort samplePlacemarks).map Placemark.priority).getLast?
      ≠ some (round4inv samplePlacemarks.length) := by
  have hsorted : samplePlacemarks.mergeSort
      (fun a b => decide (a.box.2.1 ≤ b.box.2.1)) = samplePlacemarks := by
    apply List.mergeSort_of_sorted
    simp [samplePlacemarks, samplePlacemark, List.pairwise_cons]
  have hr3 : round4inv 3 = 3333/10000 := by
    unfold round4inv
    push_cast
    norm_num [round_eq]
  have hr2 : round4inv 2 = 1/2 := by
    unfold round4inv
    push_cast
    norm_num [round_eq]
  have h1 : (Tile.sort samplePlacemarks).map Placemark.priority
      = [round4inv 3, round4inv 2, round4inv 1] := by
    unfold Tile.sort
    rw [hsorted]
    rfl
  rw [h1]
  refine ⟨by rw [hr3, hr2, round4inv_one], ?_, by norm_num, by norm_num, ?_⟩
  · simp only [List.chain'_cons]
    norm_num
  · simp only [List.getLast?_cons_cons, List.getLast?_singleton]
    rw [round4inv_one]
    show ¬ _ = _
    rw [show samplePlacemarks.length = 3 from rfl, hr3]
    simp
    norm_num

/-- Claim C2 (amended): for every origin tile address and every box,
`Placemark.get_parts` returns between 0 and 3 entries, the origin tile
is not among the returned neighbor addresses, and the returned neighbor
addresses are pairwise distinct. -/
theorem get_parts_card (x y : Int) (box : Int × Int × Int × Int) :
    (Placemark.get_parts x y box).length ≤ 3 ∧
    ((x, y) ∉ (Placemark.get_parts x y box).map Prod.fst) ∧
    ((Placemark.get_parts x y box).map Prod.fst).Nodup :=
  gp_facts x y box

/-- Claim C2, counterexample to the frozen wording: at the corner case
of the repository's own test, `Placemark.get_parts` returns 3 entries,
not at most 2. -/
theorem get_parts_three_fragments_cex :
    (Placemark.get_parts 21900 10101 (248, 248, 260, 260)).length = 3 ∧
    ¬ (Placemark.get_parts 21900 10101 (248, 248, 260, 260)).length ≤ 2 := by
  decide

/-- Claim C3: `Placemark.move` on tile `(21900, 10101)` with
`top = left = 248` and zero offset returns the tuple unchanged, and
`Placemark.get_parts` on the 12-by-12 box anchored there returns exactly
the three fragments at `(21901, 10102)`, `(21901, 10101)` and
`(21900, 10102)` with boxes `(-8, -8, 4, 4)`, `(-8, 248, 4, 260)` and
`(248, -8, 260, 4)`. -/
theorem move_get_parts_scenario :
    Placemark.move 21900 10101 248 248 (0, 0) = (21900, 10101, 248, 248) ∧
    Placemark.get_parts 21900 10101 (248, 248, 260, 260) =
      [((21901, 10102), (-8, -8, 4, 4)),
       ((21901, 10101), (-8, 248, 4, 260)),
       ((21900, 10102), (248, -8, 260, 4))] := by
  decide

/-- Claim C5: for every integer pixel coordinate pair produced by the
projection stage, the divmod decomposition of `GeoPoint.zoom` yields
intra-tile offsets `top` and `left` each within `[0, 256)`. -/
theorem zoom_offsets_in_range (lngP latP : Int) :
    0 ≤ (GeoPoint.zoom lngP latP).2.2.1 ∧ (GeoPoint.zoom lngP latP).2.2.1 < 256 ∧
    0 ≤ (GeoPoint.zoom lngP latP).2.2.2 ∧ (GeoPoint.zoom lngP latP).2.2.2 < 256 := by
  have h256 : (0 : Int) < Tile.size := by norm_num [Tile.size]
  unfold GeoPoint.zoom
  dsimp only
  refine ⟨Int.fmod_nonneg' latP h256, ?_, Int.fmod_nonneg' lngP h256, ?_⟩
  · simpa [Tile.size] using Int.fmod_lt_of_pos latP h256
  · simpa [Tile.size] using Int.fmod_lt_of_pos lngP h256

/-- Claim C6: every entry emitted by `Placemark.get_parts` carries the
translated box of the offset rule that produced its neighbor address —
the diagonal offset `(height, width)` gives
`(left-width, top-height, left, top)`, the vertical offset `(0, width)`
gives `(left-width, top, left, top+height)`, the horizontal offset
`(height, 0)` gives `(left, top-height, left+width, top)` in the wrapped
coordinates of `Placemark.move` — and when two offsets resolve to the
same neighbor address only the first offset's box is kept. -/
theorem get_parts_rule_claim (x y : Int) (box : Int × Int × Int × Int)
    (e : (Int × Int) × (Int × Int × Int × Int))
    (he : e ∈ Placemark.get_parts x y box) :
    (let W := box.2.2.1 - box.1
     let H := box.2.2.2 - box.2.1
     let m1 := Placemark.move x y box.2.1 box.1 (H, W)
     let m2 := Placemark.move x y box.2.1 box.1 (0, W)
     let m3 := Placemark.move x y box.2.1 box.1 (H, 0)
     let b1 := (m1.2.2.2 - W, m1.2.2.1 - H, m1.2.2.2, m1.2.2.1)
     let b2 := (m2.2.2.2 - W, m2.2.2.1, m2.2.2.2, m2.2.2.1 + H)
     let b3 := (m3.2.2.2, m3.2.2.1 - H, m3.2.2.2 + W, m3.2.2.1)
     (e = ((m1.1, m1.2.1), b1) ∨ e = ((m2.1, m2.2.1), b2) ∨ e = ((m3.1, m3.2.1), b3)) ∧
     ((m2.1, m2.2.1) = (m1.1, m1.2.1) → e.1 = (m2.1, m2.2.1) → e.2 = b1) ∧
     ((m3.1, m3.2.1) = (m1.1, m1.2.1) → e.1 = (m3.1, m3.2.1) → e.2 = b1) ∧
     ((m3.1, m3.2.1) = (m2.1, m2.2.1) → (m2.1, m2.2.1) ≠ (m1.1, m1.2.1) →
        e.1 = (m3.1, m3.2.1) → e.2 = b2)) :=
  ⟨gp_mem_cases x y box e he, gp_first_wins_diag_vert x y box e he,
   gp_first_wins_diag_horiz x y box e he, gp_first_wins_vert_horiz x y box e he⟩

/-- Claim C6, witness: at the corner-case input of the repository's own
test, the fragment at `(21901, 10101)` is among the three rule-produced
candidates. -/
theorem get_parts_rule_witness :
    (((21901, 10101), (-8, 248, 4, 260)) :
        (Int × Int) × (Int × Int × Int × Int)).1 ≠ (21901, 10102) ∧
    ((((21901, 10101), (-8, 248, 4, 260)) :
        (Int × Int) × (Int × Int × Int × Int)) = ((21901, 10102), (-8, -8, 4, 4)) ∨
     (((21901, 10101), (-8, 248, 4, 260)) :
        (Int × Int) × (Int × Int × Int × Int)) = ((21901, 10101), (-8, 248, 4, 260)) ∨
     (((21901, 10101), (-8, 248, 4, 260)) :
        (Int × Int) × (Int × Int × Int × Int)) = ((21900, 10102), (248, -8, 260, 4))) := by
  refine ⟨by decide, ?_⟩
  have h := (get_parts_rule_claim 21900 10101 (248, 248, 260, 260)
    ((21901, 10101), (-8, 248, 4, 260)) (by decide)).1
  exact h

/-- Claim C7 (amended): for every origin tile address and every box of
zero width and height whose anchor `(left, top)` lies within `[0, 256)`,
`Placemark.get_parts` returns the empty list. -/
theorem get_parts_zero_box (x y : Int) (box : Int × Int × Int × Int)
    (hw : box.2.2.1 = box.1) (hh : box.2.2.2 = box.2.1)
    (hl0 : 0 ≤ box.1) (hl1 : box.1 < 256) (ht0 : 0 ≤ box.2.1) (ht1 : box.2.1 < 256) :
    Placemark.get_parts x y box = [] :=
  gp_zero x y box hw hh hl0 hl1 ht0 ht1

/-- Claim C7, witness: the zero-size box anchored at `(100, 50)` on tile
`(5, 7)` yields no fragments. -/
theorem get_parts_zero_box_witness :
    Placemark.get_parts 5 7 (100, 50, 100, 50) = [] :=
  get_parts_zero_box 5 7 (100, 50, 100, 50) rfl rfl (by norm_num) (by norm_num)
    (by norm_num) (by norm_num)

/-- Claim C7, counterexample to the frozen wording: the zero-size box
anchored at `(300, 10)` — outside the tile — yields one fragment, so a
zero-size box does not always yield zero fragments. -/
theorem get_parts_zero_box_cex :
    Placemark.get_parts 0 0 (300, 10, 300, 10) = [((1, 0), (44, 10, 44, 10))] ∧
    Placemark.get_parts 0 0 (300, 10, 300, 10) ≠ [] := by
  decide

/-- Claim C8: `Tile.sort` reorders the tile's placemark sequence into
ascending order of the box top-coordinate `box[1]`, the output is a
permutation of the input (priorities aside), and the reordering is
stable — placemarks with equal top-coordinate keep their relative input
order. -/
theorem tile_sort_ordering {I D : Type} (l : List (Placemark I D)) :
    (Tile.sort l).Pairwise (fun a b => a.box.2.1 ≤ b.box.2.1) ∧
    ((Tile.sort l).map Placemark.core).Perm (l.map Placemark.core) ∧
    ∀ k : Int, ((Tile.sort l).filter (fun p => decide (p.box.2.1 = k))).map Placemark.core
      = (l.filter (fun p => decide (p.box.2.1 = k))).map Placemark.core := by
  have hcore : (Tile.sort l).map Placemark.core
      = (l.mergeSort (fun a b => decide (a.box.2.1 ≤ b.box.2.1))).map Placemark.core := by
    unfold Tile.sort
    exact assignPriorities_map_core _ _
  refine ⟨?_, ?_, ?_⟩
  · have hs := List.sorted_mergeSort sortLE_trans sortLE_total l
    have hs' : (l.mergeSort (fun a b => decide (a.box.2.1 ≤ b.box.2.1))).Pairwise
        (fun a b : Placemark I D => a.box.2.1 ≤ b.box.2.1) :=
      hs.imp (by intro a b h; simpa using h)
    have hp : ((l.mergeSort (fun a b => decide (a.box.2.1 ≤ b.box.2.1))).map
        Placemark.core).Pairwise (fun c d : Core I D => c.box.2.1 ≤ d.box.2.1) :=
      List.Pairwise.map Placemark.core (fun a b h => h) hs'
    rw [← hcore] at hp
    exact List.Pairwise.of_map Placemark.core (fun a b h => h) hp
  · rw [hcore]
    exact (List.mergeSort_perm l _).map Placemark.core
  · intro k
    rw [map_core_filter_key _ _ k hcore, mergeSort_filter_key_stable]

/-- Claim C9: for every zoomed anchor, offset and image size,
`Placemark.create` returns between 1 and 4 placemarks, the first of
which sits on the (offset-adjusted) anchor tile, and all returned
placemarks carry the same geographic anchor, visual payload and data
payload. -/
theorem create_claim {I D : Type} (x y top left : Int) (offset : Int × Int)
    (lng lat : ℚ) (sz : Int × Int) (img : I) (data : D) :
    1 ≤ (Placemark.create x y top left offset lng lat sz img data).length ∧
    (Placemark.create x y top left offset lng lat sz img data).length ≤ 4 ∧
    ((Placemark.create x y top left offset lng lat sz img data).head?.map
        Placemark.tile_num)
      = some ((Placemark.move x y top left offset).1,
          (Placemark.move x y top left offset).2.1) ∧
    (Placemark.create x y top left offset lng lat sz img data).Forall
      (fun p => p.lng = lng ∧ p.lat = lat ∧ p.img = img ∧ p.data = data) := by
  have hb := (gp_facts (Placemark.move x y top left offset).1
    (Placemark.move x y top left offset).2.1
    ((Placemark.move x y top left offset).2.2.2,
     (Placemark.move x y top left offset).2.2.1,
     (Placemark.move x y top left offset).2.2.2 + sz.1,
     (Placemark.move x y top left offset).2.2.1 + sz.2)).1
  unfold Placemark.create
  dsimp only
  refine ⟨by simp, by simp; omega, by simp, ?_⟩
  rw [List.forall_iff_forall_mem]
  intro p hp
  rw [List.mem_map] at hp
  obtain ⟨a, _, rfl⟩ := hp
  exact ⟨rfl, rfl, rfl, rfl⟩

/-- Claim C10: `Placemark.move` preserves the absolute pixel position —
`x' * 256 + left' = x * 256 + left + offsetLeft` and
`y' * 256 + top' = y * 256 + top + offsetTop` — and wraps the intra-tile
offsets into `[0, 256)`. -/
theorem move_preserves_position (x y top left : Int) (offset : Int × Int) :
    (Placemark.move x y top left offset).1 * 256 + (Placemark.move x y top left offset).2.2.2
      = x * 256 + left + offset.2 ∧
    (Placemark.move x y top left offset).2.1 * 256 + (Placemark.move x y top left offset).2.2.1
      = y * 256 + top + offset.1 ∧
    0 ≤ (Placemark.move x y top left offset).2.2.1 ∧
    (Placemark.move x y top left offset).2.2.1 < 256 ∧
    0 ≤ (Placemark.move x y top left offset).2.2.2 ∧
    (Placemark.move x y top left offset).2.2.2 < 256 := by
  have h256 : (0 : Int) < Tile.size := by norm_num [Tile.size]
  have e1 := Int.fdiv_add_fmod (left + offset.2) Tile.size
  have e2 := Int.fdiv_add_fmod (top + offset.1) Tile.size
  unfold Placemark.move
  dsimp only
  simp only [Tile.size] at e1 e2 ⊢
  refine ⟨by linarith, by linarith, Int.fmod_nonneg' _ h256, ?_,
    Int.fmod_nonneg' _ h256, ?_⟩
  · simpa [Tile.size] using Int.fmod_lt_of_pos (top + offset.1) h256
  · simpa [Tile.size] using Int.fmod_lt_of_pos (left + offset.2) h256

end Hotspots
